import Mathlib

/-!
Verification of the `ensmail` LMTP resolve-forwarder session
(`pkg/ensmail/lmtp_server.go`).

The session state machine is embedded shallowly:

* Addresses are lists of characters (`Addr`).  The address operations in
  the source (`strings.LastIndex(to, "@")`, byte slicing `to[:at]`) act on
  UTF-8 bytes, but since `'@'` is an ASCII byte that never occurs inside a
  multi-byte UTF-8 sequence, byte positions and character positions of the
  final `'@'` agree, so the character-level model is faithful.
* The Go map `session.unresolved` (`map[string]string`, resolved address
  to original address) is an association list with unique keys
  (`AssocMap`), with Go map semantics: insertion replaces an existing key
  in place, lookup of an absent key yields the zero value `""` (here `[]`),
  `delete` removes the key.
* The external collaborators (the resolver function and the forwarder
  client) are oracles passed as parameters; the calls made to them and to
  the status sink are recorded in an event trace (`Event`).
* `LMTPData`'s status channel is a list of arrival-timed events:
  `(t, rcpt, status)` means the forwarder's status callback enqueued a
  status for `rcpt` at `t` seconds after the wait loop started (`t = 0`
  means buffered before the loop started).  Each iteration of the Go wait
  loop runs `select` with a *fresh* `time.After(5 * time.Second)` timer,
  so an event is consumed iff it arrives strictly before 5 seconds after
  the iteration's start; otherwise the loop returns the timeout error.
* The Go statement `for range s.unresolved` iterates the live map while
  the body deletes entries.  Per the Go specification, a map entry removed
  before being reached is never produced, so the number of body executions
  depends on the (unspecified) iteration order.  The model therefore takes
  the iterator's production order as an explicit parameter `order` (in a
  real execution a permutation of the map's keys at loop entry) and skips
  keys already deleted, exactly as the Go runtime does.
-/

namespace EnsMail

/-- An email address (or address fragment), as a list of characters. -/
abbrev Addr := List Char

/-- Errors surfaced by the session.  External errors (resolver failures,
forwarder failures, copy failures, SMTP statuses) are opaque and carry a
tag.  `timeout` is the aggregate error built in `LMTPData`'s timeout
branch, carrying the original addresses still unreported; `invalidRcpt`
is the `"invalid recipient email: %s"` error; `dataNotLMTP` is the
`"LMTPData method should be called"` error returned by `Data`. -/
inductive Err where
  | invalidRcpt (toAddr : Addr)
  | ext (n : Nat)
  | timeout (missing : List Addr)
  | dataNotLMTP
  deriving DecidableEq

/-- Calls made by the session to its collaborators: the resolver, the
forwarder client (`Rcpt`, `Reset`, `LMTPData` sink open/close) and the
status sink (`SetStatus`). -/
inductive Event where
  | resolveCall (id : Addr)
  | fwdRcptCall (toAddr : Addr)
  | fwdResetCall
  | openSinkCall
  | closeSinkCall
  | setStatusCall (rcpt : Addr) (status : Option Err)
  deriving DecidableEq

/-- The `unresolved` map: key = resolved forwarding address, value =
original recipient address. -/
abbrev AssocMap := List (Addr × Addr)

/-- Go map lookup `m[k]`: the zero value `""` (here `[]`) when absent. -/
def mapLookup : AssocMap → Addr → Addr
  | [], _ => []
  | p :: rest, k => if p.1 = k then p.2 else mapLookup rest k

/-- Go map assignment `m[k] = v`: replaces the entry when the key is
already present, appends otherwise. -/
def mapInsert : AssocMap → Addr → Addr → AssocMap
  | [], k, v => [(k, v)]
  | p :: rest, k, v => if p.1 = k then (k, v) :: rest else p :: mapInsert rest k v

/-- Go `delete(m, k)`. -/
def mapDelete : AssocMap → Addr → AssocMap
  | [], _ => []
  | p :: rest, k => if p.1 = k then mapDelete rest k else p :: mapDelete rest k

/-- The keys of the map (resolved forwarding addresses). -/
def mapKeys (m : AssocMap) : List Addr := m.map Prod.fst

/-- The values of the map (original recipient addresses). -/
def mapValues (m : AssocMap) : List Addr := m.map Prod.snd

/-- Number of entries of `m` whose key is `k`. -/
def entryCount : AssocMap → Addr → Nat
  | [], _ => 0
  | p :: rest, k => (if p.1 = k then 1 else 0) + entryCount rest k

/-- The mutable per-connection state of `session` in `lmtp_server.go`.
The Go struct also holds a logger, the resolver and the forwarder client;
the latter two are modelled as oracle parameters of each operation and
the logger has no observable effect.  Note that the struct stores no
sender field. -/
structure Session where
  unresolved : AssocMap
  deriving DecidableEq

/-- The session built by `NewSession`: `unresolved: make(map[string]string)`. -/
def freshSession : Session := ⟨[]⟩

/-- Go `strings.LastIndex(s, c)` for a single character: the index of the
last occurrence of `c`, `-1` when absent. -/
def lastIndexOf (c : Char) : List Char → Int
  | [] => -1
  | x :: xs =>
    let r := lastIndexOf c xs
    if r ≥ 0 then r + 1 else if x = c then 0 else -1

/-- Result of one `Rcpt` call: the updated session, the returned error
(`none` = success) and the trace of collaborator calls. -/
structure RcptResult where
  sess : Session
  err : Option Err
  trace : List Event
  deriving DecidableEq

/-- `session.Rcpt(to)` from `lmtp_server.go` (the Go parameter `to` is
renamed `toAddr` here because `to` is reserved in Lean):

    at := strings.LastIndex(to, "@")
    if at <= 0 { return fmt.Errorf("invalid recipient email: %s", to) }
    resolved, err := s.resolver(ctx, to[:at])
    if err != nil { return err }
    s.unresolved[resolved] = to
    if err := s.forwarder.Rcpt(resolved); err != nil { return err }
    return nil

`resolver` and `fwdRcpt` are the oracle behaviours of the resolution
function and of the forwarder client's `Rcpt`. -/
def rcpt (resolver : Addr → Except Err Addr) (fwdRcpt : Addr → Option Err)
    (s : Session) (toAddr : Addr) : RcptResult :=
  let i := lastIndexOf '@' toAddr
  if i ≤ 0 then
    ⟨s, some (Err.invalidRcpt toAddr), []⟩
  else
    match resolver (toAddr.take i.toNat) with
    | Except.error e => ⟨s, some e, [Event.resolveCall (toAddr.take i.toNat)]⟩
    | Except.ok resolved =>
      let s' : Session := ⟨mapInsert s.unresolved resolved toAddr⟩
      match fwdRcpt resolved with
      | some e => ⟨s', some e, [Event.resolveCall (toAddr.take i.toNat), Event.fwdRcptCall resolved]⟩
      | none => ⟨s', none, [Event.resolveCall (toAddr.take i.toNat), Event.fwdRcptCall resolved]⟩

/-- `session.Reset()` from `lmtp_server.go`: logs and calls
`s.forwarder.Reset()`.  It touches no session field. -/
def reset (s : Session) : Session × List Event :=
  (s, [Event.fwdResetCall])

/-- `session.Data(r)` from `lmtp_server.go`: returns
`errors.New("LMTPData method should be called")` unconditionally.  The
reader argument is modelled as an opaque byte list. -/
def dataPlain (s : Session) (_r : List Nat) : Session × Option Err × List Event :=
  (s, some Err.dataNotLMTP, [])

/-- Result of the status-wait loop: the `SetStatus` trace, the returned
error (`none` = loop completed), the remaining `unresolved` map, and the
time at which the loop finished. -/
structure WaitResult where
  trace : List Event
  err : Option Err
  m : AssocMap
  finish : Nat
  deriving DecidableEq

/-- The status-wait loop of `session.LMTPData`:

    for range s.unresolved {
      select {
      case rsp := <-dataRsps:
        status.SetStatus(s.unresolved[rsp.rcpt], rsp.err)
        delete(s.unresolved, rsp.rcpt)
      case <-time.After(5 * time.Second):
        ... return fmt.Errorf("timeout waiting for forward LMTP status: ...")
      }
    }

`order` is the production order of the Go map iterator (a permutation of
the keys at loop entry); keys deleted before being produced are skipped
and do not execute the body, per the Go range-over-map semantics.
`arrivals` is the channel content in arrival order with arrival times;
each iteration's fresh 5-second timer fires at `now + 5`, so the next
event is consumed iff it arrives strictly earlier, at time `max now ta`.
The timeout error names the values (original addresses) still in the
map. -/
def waitLoop : List Addr → AssocMap → List (Nat × Addr × Option Err) → Nat → WaitResult
  | [], m, _, now => ⟨[], none, m, now⟩
  | k :: rest, m, arrivals, now =>
    if k ∈ mapKeys m then
      match arrivals with
      | [] => ⟨[], some (Err.timeout (mapValues m)), m, now + 5⟩
      | (ta, r, e) :: restArr =>
        if ta < now + 5 then
          let res := waitLoop rest (mapDelete m r) restArr (max now ta)
          ⟨Event.setStatusCall (mapLookup m r) e :: res.trace, res.err, res.m, res.finish⟩
        else
          ⟨[], some (Err.timeout (mapValues m)), m, now + 5⟩
    else
      waitLoop rest m arrivals now

/-- Result of one `LMTPData` call: updated session, returned error,
trace, and the time at which the status-wait loop finished (`0` when the
loop was never entered). -/
structure DataResult where
  sess : Session
  err : Option Err
  trace : List Event
  finish : Nat
  deriving DecidableEq

/-- `session.LMTPData(r, status)` from `lmtp_server.go`:

    w, err := s.forwarder.LMTPData(callback)   -- openRes
    if err != nil { return err }
    n, err := io.Copy(w, r)                    -- copyRes
    w.Close()
    if err != nil { return err }
    <status-wait loop>                         -- waitLoop
    return nil / timeout error

`openRes` is the error outcome of opening the forwarder's data sink,
`copyRes` the error outcome of `io.Copy`, and `order`/`arrivals` drive
the wait loop as described at `waitLoop`. -/
def lmtpData (openRes : Option Err) (copyRes : Option Err)
    (order : List Addr) (arrivals : List (Nat × Addr × Option Err))
    (s : Session) : DataResult :=
  match openRes with
  | some e => ⟨s, some e, [Event.openSinkCall], 0⟩
  | none =>
    match copyRes with
    | some e => ⟨s, some e, [Event.openSinkCall, Event.closeSinkCall], 0⟩
    | none =>
      let w := waitLoop order s.unresolved arrivals 0
      ⟨⟨w.m⟩, w.err, Event.openSinkCall :: Event.closeSinkCall :: w.trace, w.finish⟩

/-! ### Helper lemmas about the map and `lastIndexOf` -/

theorem lastIndexOf_of_not_mem (c : Char) (s : List Char) (h : c ∉ s) :
    lastIndexOf c s = -1 := by
  induction s with
  | nil => rfl
  | cons x xs ih =>
    have hx : ¬ x = c := fun he => h (by simp [he])
    have hxs : c ∉ xs := fun hm => h (List.mem_cons_of_mem _ hm)
    simp [lastIndexOf, ih hxs, hx]

theorem lastIndexOf_append (c : Char) (pre suf : List Char) (h : c ∉ suf) :
    lastIndexOf c (pre ++ c :: suf) = (pre.length : Int) := by
  induction pre with
  | nil => simp [lastIndexOf, lastIndexOf_of_not_mem c suf h]
  | cons x xs ih =>
    have hih : lastIndexOf c (xs ++ c :: suf) ≥ 0 := by rw [ih]; exact Int.natCast_nonneg _
    simp only [List.cons_append, lastIndexOf, ih]
    simp [hih]
    exact ih

theorem mapDelete_not_mem (m : AssocMap) (k : Addr) (h : k ∉ mapKeys m) :
    mapDelete m k = m := by
  induction m with
  | nil => rfl
  | cons p rest ih =>
    have h1 : ¬ p.1 = k := fun he => h (by simp [mapKeys, he])
    have h2 : k ∉ mapKeys rest := fun hm => h (by simp [mapKeys] at hm ⊢; exact Or.inr hm)
    simp [mapDelete, h1, ih h2]

theorem mapLookup_insert (m : AssocMap) (k v : Addr) :
    mapLookup (mapInsert m k v) k = v := by
  induction m with
  | nil => simp [mapInsert, mapLookup]
  | cons p rest ih =>
    by_cases h : p.1 = k
    · simp [mapInsert, h, mapLookup]
    · simp [mapInsert, h, mapLookup, ih]

theorem mem_mapKeys_insert {m : AssocMap} {k0 v k : Addr}
    (h : k ∈ mapKeys (mapInsert m k0 v)) : k = k0 ∨ k ∈ mapKeys m := by
  induction m with
  | nil => simpa [mapInsert, mapKeys] using h
  | cons p rest ih =>
    by_cases hp : p.1 = k0
    · rw [show mapInsert (p :: rest) k0 v = (k0, v) :: rest from by simp [mapInsert, hp]] at h
      rw [show mapKeys ((k0, v) :: rest) = k0 :: mapKeys rest from rfl] at h
      rcases List.mem_cons.mp h with h | h
      · exact Or.inl h
      · exact Or.inr (by simp [mapKeys]; right; simpa [mapKeys] using h)
    · rw [show mapInsert (p :: rest) k0 v = p :: mapInsert rest k0 v from by
        simp [mapInsert, hp]] at h
      rw [show mapKeys (p :: mapInsert rest k0 v) = p.1 :: mapKeys (mapInsert rest k0 v)
        from rfl] at h
      rcases List.mem_cons.mp h with h | h
      · exact Or.inr (by simp [mapKeys, h])
      · rcases ih h with h | h
        · exact Or.inl h
        · exact Or.inr (by simp [mapKeys]; right; simpa [mapKeys] using h)

theorem mapKeys_insert_nodup (m : AssocMap) (k v : Addr) (h : (mapKeys m).Nodup) :
    (mapKeys (mapInsert m k v)).Nodup := by
  induction m with
  | nil => simp [mapInsert, mapKeys]
  | cons p rest ih =>
    rw [show mapKeys (p :: rest) = p.1 :: mapKeys rest from rfl, List.nodup_cons] at h
    obtain ⟨hp, hr⟩ := h
    by_cases hpk : p.1 = k
    · rw [show mapInsert (p :: rest) k v = (k, v) :: rest from by simp [mapInsert, hpk]]
      rw [show mapKeys ((k, v) :: rest) = k :: mapKeys rest from rfl, List.nodup_cons]
      exact ⟨hpk ▸ hp, hr⟩
    · rw [show mapInsert (p :: rest) k v = p :: mapInsert rest k v from by simp [mapInsert, hpk]]
      rw [show mapKeys (p :: mapInsert rest k v) = p.1 :: mapKeys (mapInsert rest k v)
        from rfl, List.nodup_cons]
      refine ⟨fun hmem => ?_, ih hr⟩
      rcases mem_mapKeys_insert hmem with h | h
      · exact hpk h
      · exact hp h

theorem entryCount_eq_zero (m : AssocMap) (k : Addr) (h : k ∉ mapKeys m) :
    entryCount m k = 0 := by
  induction m with
  | nil => rfl
  | cons p rest ih =>
    have h1 : ¬ p.1 = k := fun he => h (by simp [mapKeys, he])
    have h2 : k ∉ mapKeys rest := fun hm => h (by simp [mapKeys] at hm ⊢; exact Or.inr hm)
    simp [entryCount, h1, ih h2]

theorem entryCount_insert (m : AssocMap) (k v : Addr) (h : (mapKeys m).Nodup) :
    entryCount (mapInsert m k v) k = 1 := by
  induction m with
  | nil => simp [mapInsert, entryCount]
  | cons p rest ih =>
    rw [show mapKeys (p :: rest) = p.1 :: mapKeys rest from rfl, List.nodup_cons] at h
    obtain ⟨hp, hr⟩ := h
    by_cases hpk : p.1 = k
    · simp [mapInsert, hpk, entryCount, entryCount_eq_zero rest k (hpk ▸ hp)]
    · simp [mapInsert, hpk, entryCount, ih hr]

/-! ### Helper lemmas about the status-wait loop -/

theorem waitLoop_finish_le (order : List Addr) :
    ∀ (m : AssocMap) (arrivals : List (Nat × Addr × Option Err)) (now : Nat),
    (waitLoop order m arrivals now).finish ≤ now + 5 * order.length := by
  induction order with
  | nil => intro m arrivals now; simp [waitLoop]
  | cons k rest ih =>
    intro m arrivals now
    by_cases hk : k ∈ mapKeys m
    · rcases arrivals with _ | ⟨⟨ta, r, e⟩, restArr⟩
      · simp [waitLoop, hk]
      · by_cases hta : ta < now + 5
        · have h1 := ih (mapDelete m r) restArr (max now ta)
          simp [waitLoop, hk, hta]
          omega
        · simp [waitLoop, hk, hta]
    · have h1 := ih m arrivals now
      simp [waitLoop, hk]
      omega

theorem waitLoop_timeout_missing (order : List Addr) :
    ∀ (m : AssocMap) (arrivals : List (Nat × Addr × Option Err)) (now : Nat)
      (miss : List Addr),
    (waitLoop order m arrivals now).err = some (Err.timeout miss) →
    miss = mapValues (waitLoop order m arrivals now).m := by
  induction order with
  | nil => intro m arrivals now miss h; simp [waitLoop] at h
  | cons k rest ih =>
    intro m arrivals now miss h
    by_cases hk : k ∈ mapKeys m
    · rcases arrivals with _ | ⟨⟨ta, r, e⟩, restArr⟩
      · simp [waitLoop, hk] at h ⊢
        exact h.symm
      · by_cases hta : ta < now + 5
        · simp [waitLoop, hk, hta] at h ⊢
          exact ih _ _ _ _ h
        · simp [waitLoop, hk, hta] at h ⊢
          exact h.symm
    · simp only [waitLoop, if_neg hk] at h ⊢
      exact ih _ _ _ _ h

theorem waitLoop_no_close (order : List Addr) :
    ∀ (m : AssocMap) (arrivals : List (Nat × Addr × Option Err)) (now : Nat),
    Event.closeSinkCall ∉ (waitLoop order m arrivals now).trace := by
  induction order with
  | nil => intro m arrivals now; simp [waitLoop]
  | cons k rest ih =>
    intro m arrivals now
    by_cases hk : k ∈ mapKeys m
    · rcases arrivals with _ | ⟨⟨ta, r, e⟩, restArr⟩
      · simp [waitLoop, hk]
      · by_cases hta : ta < now + 5
        · have h1 := ih (mapDelete m r) restArr (max now ta)
          simp [waitLoop, hk, hta, h1]
        · simp [waitLoop, hk, hta]
    · have h1 := ih m arrivals now
      simp [waitLoop, hk, h1]

theorem waitLoop_aligned (f : Addr → Option Err) (m : AssocMap)
    (h : (mapKeys m).Nodup) :
    waitLoop (mapKeys m) m (m.map (fun p => (0, p.1, f p.1))) 0 =
      ⟨m.map (fun p => Event.setStatusCall p.2 (f p.1)), none, [], 0⟩ := by
  induction m with
  | nil => rfl
  | cons p rest ih =>
    rw [show mapKeys (p :: rest) = p.1 :: mapKeys rest from rfl, List.nodup_cons] at h
    obtain ⟨hp, hr⟩ := h
    have hmem : p.1 ∈ mapKeys (p :: rest) := by simp [mapKeys]
    have hdel : mapDelete (p :: rest) p.1 = rest := by
      simp [mapDelete, mapDelete_not_mem rest p.1 hp]
    have hlook : mapLookup (p :: rest) p.1 = p.2 := by simp [mapLookup]
    show waitLoop (p.1 :: mapKeys rest) (p :: rest)
        ((0, p.1, f p.1) :: rest.map (fun q => (0, q.1, f q.1))) 0 = _
    simp [waitLoop, hmem, hdel, hlook, ih hr]

/-! ### Decomposition facts for `Rcpt`'s address handling -/

theorem lastIndexOf_pos (pre suf : Addr) (hpre : pre ≠ []) (hsuf : '@' ∉ suf) :
    ¬ (lastIndexOf '@' (pre ++ '@' :: suf) ≤ 0) := by
  rw [lastIndexOf_append '@' pre suf hsuf]
  have h : 0 < pre.length := List.length_pos.mpr hpre
  exact_mod_cast Nat.not_le.mpr h

theorem take_lastIndexOf (pre suf : Addr) (hsuf : '@' ∉ suf) :
    (pre ++ '@' :: suf).take (lastIndexOf '@' (pre ++ '@' :: suf)).toNat = pre := by
  rw [lastIndexOf_append '@' pre suf hsuf, Int.toNat_natCast]
  exact List.take_left pre _

/-! ### Claims -/

/-- Claim C5: `Rcpt` hands the resolver exactly the portion of the
recipient address preceding its final `'@'`; when the address contains
no `'@'`, or its only (hence last) `'@'` is the first character, `Rcpt`
returns the invalid-recipient error with an empty trace — neither the
resolver nor the forwarder is invoked and the session is unchanged. -/
theorem rcpt_localpart (resolver : Addr → Except Err Addr)
    (fwdRcpt : Addr → Option Err) (s : Session) (toAddr pre suf : Addr) :
    (toAddr = pre ++ '@' :: suf → pre ≠ [] → '@' ∉ suf →
      (rcpt resolver fwdRcpt s toAddr).trace.head? = some (Event.resolveCall pre)) ∧
    ('@' ∉ toAddr →
      rcpt resolver fwdRcpt s toAddr = ⟨s, some (Err.invalidRcpt toAddr), []⟩) ∧
    (toAddr = '@' :: suf → '@' ∉ suf →
      rcpt resolver fwdRcpt s toAddr = ⟨s, some (Err.invalidRcpt toAddr), []⟩) := by
  refine ⟨fun hto hpre hsuf => ?_, fun hno => ?_, fun hto hsuf => ?_⟩
  · subst hto
    simp only [rcpt, if_neg (lastIndexOf_pos pre suf hpre hsuf),
      take_lastIndexOf pre suf hsuf]
    cases resolver pre with
    | error e => rfl
    | ok resolved =>
      dsimp only
      cases hf : fwdRcpt resolved <;> rfl
  · have hle : lastIndexOf '@' toAddr ≤ 0 := by
      rw [lastIndexOf_of_not_mem '@' toAddr hno]; decide
    simp [rcpt, if_pos hle]
  · subst hto
    have hle : lastIndexOf '@' ('@' :: suf) ≤ 0 := by
      have h0 := lastIndexOf_append '@' [] suf hsuf
      simp only [List.nil_append] at h0
      rw [h0]; decide
    simp [rcpt, if_pos hle]

/-- Claim C5 witness: concrete instances of all three parts. -/
theorem rcpt_localpart_witness :
    (rcpt (fun _ => Except.ok ['R']) (fun _ => none) freshSession
        ['a', 'b', '@', 'c']).trace.head? = some (Event.resolveCall ['a', 'b']) ∧
    rcpt (fun _ => Except.ok ['R']) (fun _ => none) freshSession ['x', 'y'] =
      ⟨freshSession, some (Err.invalidRcpt ['x', 'y']), []⟩ ∧
    rcpt (fun _ => Except.ok ['R']) (fun _ => none) freshSession ['@', 'z'] =
      ⟨freshSession, some (Err.invalidRcpt ['@', 'z']), []⟩ := by
  refine ⟨?_, ?_, ?_⟩
  · exact (rcpt_localpart (fun _ => Except.ok ['R']) (fun _ => none) freshSession
      ['a', 'b', '@', 'c'] ['a', 'b'] ['c']).1 rfl (by decide) (by decide)
  · exact (rcpt_localpart (fun _ => Except.ok ['R']) (fun _ => none) freshSession
      ['x', 'y'] [] []).2.1 (by decide)
  · exact (rcpt_localpart (fun _ => Except.ok ['R']) (fun _ => none) freshSession
      ['@', 'z'] [] ['z']).2.2 rfl (by decide)

/-- Claim C6: when the resolver fails on the extracted identifier, that
`Rcpt` call returns the resolver's error, the session (hence the whole
`unresolved` map, including previously accepted recipients) is exactly
unchanged, and the forwarder's `Rcpt` is not invoked — the trace holds
the resolver call only. -/
theorem rcpt_resolver_error (resolver : Addr → Except Err Addr)
    (fwdRcpt : Addr → Option Err) (s : Session) (pre suf : Addr) (e : Err)
    (hpre : pre ≠ []) (hsuf : '@' ∉ suf)
    (hres : resolver pre = Except.error e) :
    rcpt resolver fwdRcpt s (pre ++ '@' :: suf) =
      ⟨s, some e, [Event.resolveCall pre]⟩ := by
  simp only [rcpt, if_neg (lastIndexOf_pos pre suf hpre hsuf),
    take_lastIndexOf pre suf hsuf, hres]

/-- Claim C6 witness: a failing resolver rejects `q@h` while the entry
for the previously accepted recipient `p@h` stays in the map. -/
theorem rcpt_resolver_error_witness :
    rcpt (fun _ => Except.error (Err.ext 3)) (fun _ => none)
        ⟨[(['R'], ['p', '@', 'h'])]⟩ ['q', '@', 'h'] =
      ⟨⟨[(['R'], ['p', '@', 'h'])]⟩, some (Err.ext 3), [Event.resolveCall ['q']]⟩ :=
  rcpt_resolver_error (fun _ => Except.error (Err.ext 3)) (fun _ => none)
    ⟨[(['R'], ['p', '@', 'h'])]⟩ ['q'] ['h'] (Err.ext 3) (by decide) (by decide) rfl

/-- Claim C3 counterexample: `Rcpt` stores `unresolved[resolved] = to`
*before* invoking the forwarder's `Rcpt` and does not remove the entry
when that call fails.  With a resolver mapping `a` to `R` and a
forwarder rejecting every recipient, the `Rcpt` command fails yet the
key `R` — never accepted downstream — remains in the map, violating the
claimed invariant. -/
theorem rcpt_entry_survives_fwd_error_cex :
    (rcpt (fun _ => Except.ok ['R']) (fun _ => some (Err.ext 7)) freshSession
        ['a', '@', 'x']) =
      ⟨⟨[(['R'], ['a', '@', 'x'])]⟩, some (Err.ext 7),
        [Event.resolveCall ['a'], Event.fwdRcptCall ['R']]⟩ := by decide

/-- Claim C3 (amended): every key of `unresolved` corresponds to a
recipient that passed resolution and whose `Rcpt` was *attempted* on the
downstream Forwarding Client — though not necessarily accepted by it:
any key a `Rcpt` call adds to the map appears as a forwarder `Rcpt`
call in that call's trace, whether the forwarder accepted or rejected
it, and on rejection the entry remains in the map. -/
theorem rcpt_new_keys_forwarded (resolver : Addr → Except Err Addr)
    (fwdRcpt : Addr → Option Err) (s : Session) (toAddr k : Addr)
    (hk : k ∈ mapKeys (rcpt resolver fwdRcpt s toAddr).sess.unresolved) :
    k ∈ mapKeys s.unresolved ∨
      Event.fwdRcptCall k ∈ (rcpt resolver fwdRcpt s toAddr).trace := by
  by_cases hi : lastIndexOf '@' toAddr ≤ 0
  · left
    simpa [rcpt, if_pos hi] using hk
  · cases hres : resolver (toAddr.take (lastIndexOf '@' toAddr).toNat) with
    | error e =>
      left
      simpa [rcpt, if_neg hi, hres] using hk
    | ok resolved =>
      cases hf : fwdRcpt resolved with
      | some e =>
        simp only [rcpt, if_neg hi, hres, hf] at hk ⊢
        rcases mem_mapKeys_insert hk with h | h
        · right; simp [h]
        · left; exact h
      | none =>
        simp only [rcpt, if_neg hi, hres, hf] at hk ⊢
        rcases mem_mapKeys_insert hk with h | h
        · right; simp [h]
        · left; exact h

/-- Claim C3 witness: the key added by a forwarder-rejected `Rcpt` was
at least passed to the forwarder. -/
theorem rcpt_new_keys_forwarded_witness :
    ['R'] ∈ mapKeys freshSession.unresolved ∨
      Event.fwdRcptCall ['R'] ∈
        (rcpt (fun _ => Except.ok ['R']) (fun _ => some (Err.ext 7)) freshSession
          ['a', '@', 'x']).trace :=
  rcpt_new_keys_forwarded (fun _ => Except.ok ['R']) (fun _ => some (Err.ext 7))
    freshSession ['a', '@', 'x'] ['R'] (by decide)

/-- Claim C8: when two `Rcpt` calls in one transaction succeed with
distinct original addresses resolving to the same forwarding address
`R`, the map afterwards holds exactly one entry for `R`, whose value is
the original address of the later call — the earlier original recipient
is silently overwritten. -/
theorem rcpt_same_resolved_overwrites (resolver : Addr → Except Err Addr)
    (fwdRcpt : Addr → Option Err) (s : Session) (to1 to2 R : Addr)
    (hnd : (mapKeys s.unresolved).Nodup) (hne : to1 ≠ to2)
    (hi1 : ¬ lastIndexOf '@' to1 ≤ 0)
    (hr1 : resolver (to1.take (lastIndexOf '@' to1).toNat) = Except.ok R)
    (hi2 : ¬ lastIndexOf '@' to2 ≤ 0)
    (hr2 : resolver (to2.take (lastIndexOf '@' to2).toNat) = Except.ok R)
    (hf : fwdRcpt R = none) :
    (rcpt resolver fwdRcpt s to1).err = none ∧
    (rcpt resolver fwdRcpt (rcpt resolver fwdRcpt s to1).sess to2).err = none ∧
    mapLookup
      (rcpt resolver fwdRcpt (rcpt resolver fwdRcpt s to1).sess to2).sess.unresolved R
      = to2 ∧
    entryCount
      (rcpt resolver fwdRcpt (rcpt resolver fwdRcpt s to1).sess to2).sess.unresolved R
      = 1 := by
  have hs1 : (rcpt resolver fwdRcpt s to1).sess = ⟨mapInsert s.unresolved R to1⟩ := by
    simp [rcpt, if_neg hi1, hr1, hf]
  have he1 : (rcpt resolver fwdRcpt s to1).err = none := by
    simp [rcpt, if_neg hi1, hr1, hf]
  have hs2 : (rcpt resolver fwdRcpt (rcpt resolver fwdRcpt s to1).sess to2).sess
      = ⟨mapInsert (mapInsert s.unresolved R to1) R to2⟩ := by
    rw [hs1]
    simp [rcpt, if_neg hi2, hr2, hf]
  have he2 : (rcpt resolver fwdRcpt (rcpt resolver fwdRcpt s to1).sess to2).err = none := by
    rw [hs1]
    simp [rcpt, if_neg hi2, hr2, hf]
  refine ⟨he1, he2, ?_, ?_⟩
  · rw [hs2]
    exact mapLookup_insert (mapInsert s.unresolved R to1) R to2
  · rw [hs2]
    exact entryCount_insert (mapInsert s.unresolved R to1) R to2
      (mapKeys_insert_nodup s.unresolved R to1 hnd)

/-- Claim C8 witness: `p@h` then `q@h` both resolve to `R`; afterwards
the single `R` entry holds `q@h`. -/
theorem rcpt_same_resolved_overwrites_witness :
    (rcpt (fun _ => Except.ok ['R']) (fun _ => none) freshSession ['p', '@', 'h']).err
      = none ∧
    (rcpt (fun _ => Except.ok ['R']) (fun _ => none)
      (rcpt (fun _ => Except.ok ['R']) (fun _ => none) freshSession
        ['p', '@', 'h']).sess ['q', '@', 'h']).err = none ∧
    mapLookup (rcpt (fun _ => Except.ok ['R']) (fun _ => none)
      (rcpt (fun _ => Except.ok ['R']) (fun _ => none) freshSession
        ['p', '@', 'h']).sess ['q', '@', 'h']).sess.unresolved ['R'] = ['q', '@', 'h'] ∧
    entryCount (rcpt (fun _ => Except.ok ['R']) (fun _ => none)
      (rcpt (fun _ => Except.ok ['R']) (fun _ => none) freshSession
        ['p', '@', 'h']).sess ['q', '@', 'h']).sess.unresolved ['R'] = 1 :=
  rcpt_same_resolved_overwrites (fun _ => Except.ok ['R']) (fun _ => none)
    freshSession ['p', '@', 'h'] ['q', '@', 'h'] ['R'] (by decide) (by decide)
    (by decide) rfl (by decide) rfl rfl

/-- Claim C4 counterexample: `Reset` does not discard transaction
state.  On a session holding one accepted recipient, the `unresolved`
entry survives the reset, and a subsequent body transfer (with no
pending statuses) times out naming the stale recipient, while the same
call on a fresh session succeeds — the post-reset session does not
behave like a freshly created one. -/
theorem reset_not_fresh_cex :
    (reset ⟨[(['R'], ['a', '@', 'x'])]⟩).1.unresolved = [(['R'], ['a', '@', 'x'])] ∧
    (reset ⟨[(['R'], ['a', '@', 'x'])]⟩).1.unresolved ≠ [] ∧
    (lmtpData none none [['R']] [] (reset ⟨[(['R'], ['a', '@', 'x'])]⟩).1).err
      = some (Err.timeout [['a', '@', 'x']]) ∧
    (lmtpData none none [] [] freshSession).err = none := by decide

/-- Claim C4 (amended): `Reset` propagates the reset to the Forwarding
Client but leaves the session state — in particular the `unresolved`
map — unchanged (the session stores no sender at all); a post-reset
session therefore coincides with a fresh session exactly when
`unresolved` was already empty. -/
theorem reset_keeps_state (s : Session) :
    (reset s).1.unresolved = s.unresolved ∧
    (reset s).2 = [Event.fwdResetCall] ∧
    (s.unresolved = [] → (reset s).1 = freshSession) := by
  refine ⟨rfl, rfl, fun h => ?_⟩
  cases s with
  | mk u =>
    subst h
    rfl

/-- Claim C4 witness: on an empty-map session, reset yields the fresh
session. -/
theorem reset_keeps_state_witness : (reset freshSession).1 = freshSession :=
  (reset_keeps_state freshSession).2.2 rfl

/-- Claim C9: the plain (non-LMTP) `Data` method always returns the
`"LMTPData method should be called"` error, invokes no collaborator
(empty trace — neither resolver nor forwarder) and leaves the session
unchanged, for every session and every input reader. -/
theorem data_plain_always_errors (s : Session) (r : List Nat) :
    dataPlain s r = (s, some Err.dataNotLMTP, ([] : List Event)) := rfl

/-- Claim C1 counterexample: recipients `p@h ↦ A` and `q@h ↦ B` are
accepted, resolve to pairwise-distinct forwarding addresses, and the
forwarder's callback fires exactly once per forwarded recipient (both
statuses buffered before the wait loop).  The map iterator produces `A`
first, but the first status consumed is `B`'s: the body deletes key `B`
before the iterator reaches it, so — per Go's range-over-map
semantics — the loop ends after one iteration.  `SetStatus` is called
once, for `q@h` only; `p@h` is never reported, and `LMTPData` returns
success with the stale `A` entry still in the map. -/
theorem lmtpData_skips_recipient_cex :
    (lmtpData none none [['A'], ['B']] [(0, ['B'], none), (0, ['A'], none)]
        ⟨[(['A'], ['p', '@', 'h']), (['B'], ['q', '@', 'h'])]⟩) =
      ⟨⟨[(['A'], ['p', '@', 'h'])]⟩, none,
        [Event.openSinkCall, Event.closeSinkCall,
          Event.setStatusCall ['q', '@', 'h'] none], 0⟩ ∧
    Event.setStatusCall ['p', '@', 'h'] none ∉
      (lmtpData none none [['A'], ['B']] [(0, ['B'], none), (0, ['A'], none)]
        ⟨[(['A'], ['p', '@', 'h']), (['B'], ['q', '@', 'h'])]⟩).trace := by decide

/-- Claim C1 (amended): under the claim's hypotheses *plus* the
additional hypothesis that the statuses are all buffered before the
wait loop starts and arrive in the same order in which the map iterator
produces the keys, `LMTPData` calls `SetStatus` exactly once per
accepted recipient, each time passing the original address recorded in
`unresolved` (never the resolved forwarding address), consumes the
whole map and succeeds.  Without that ordering hypothesis a status for
a not-yet-produced key shortens the loop and an accepted recipient can
go unreported (see the counterexample). -/
theorem lmtpData_aligned_reports_each_once (f : Addr → Option Err) (m : AssocMap)
    (hnd : (mapKeys m).Nodup) :
    lmtpData none none (mapKeys m) (m.map (fun p => (0, p.1, f p.1))) ⟨m⟩ =
      ⟨freshSession, none,
        Event.openSinkCall :: Event.closeSinkCall ::
          m.map (fun p => Event.setStatusCall p.2 (f p.1)), 0⟩ := by
  simp [lmtpData, waitLoop_aligned f m hnd, freshSession]

/-- Claim C1 witness: two recipients, statuses aligned with iterator
order, each reported exactly once with its original address. -/
theorem lmtpData_aligned_reports_each_once_witness :
    lmtpData none none (mapKeys [(['A'], ['p', '@', 'h']), (['B'], ['q', '@', 'h'])])
        ([(['A'], ['p', '@', 'h']), (['B'], ['q', '@', 'h'])].map
          (fun p => (0, p.1, (fun _ => (none : Option Err)) p.1)))
        ⟨[(['A'], ['p', '@', 'h']), (['B'], ['q', '@', 'h'])]⟩ =
      ⟨freshSession, none,
        Event.openSinkCall :: Event.closeSinkCall ::
          [(['A'], ['p', '@', 'h']), (['B'], ['q', '@', 'h'])].map
            (fun p => Event.setStatusCall p.2 ((fun _ => (none : Option Err)) p.1)),
        0⟩ :=
  lmtpData_aligned_reports_each_once (fun _ => none)
    [(['A'], ['p', '@', 'h']), (['B'], ['q', '@', 'h'])] (by decide)

/-- Claim C2 counterexample: two outstanding recipients whose statuses
arrive 4 and 8 seconds after the wait loop starts.  Each arrival beats
its own iteration's freshly armed 5-second timer, so `LMTPData`
consumes both and returns success with the wait loop finishing at
t = 8s: the claimed single 5-second budget for the whole Data operation
elapsed before all recipients were reported, yet no timeout error was
returned and statuses were still being awaited. -/
theorem lmtpData_budget_exceeded_cex :
    (lmtpData none none [['A'], ['B']] [(4, ['A'], none), (8, ['B'], none)]
        ⟨[(['A'], ['p', '@', 'h']), (['B'], ['q', '@', 'h'])]⟩) =
      ⟨freshSession, none,
        [Event.openSinkCall, Event.closeSinkCall,
          Event.setStatusCall ['p', '@', 'h'] none,
          Event.setStatusCall ['q', '@', 'h'] none], 8⟩ ∧
    ¬ ((8 : Nat) ≤ 5) := by decide

/-- Claim C2 (amended): the 5-second timer is re-armed on every
iteration of the status-wait loop (`time.After` inside the `select`),
so the bound on the total wait is 5 seconds *per produced key* — the
loop finishes by `5 * |order|` — not a single 5-second budget for the
whole Data operation; and when some iteration's timer does fire first,
`LMTPData` returns the aggregate timeout error naming exactly the
original addresses of the still-unreported recipients and awaits no
further statuses. -/
theorem lmtpData_per_event_timeout (order : List Addr)
    (arrivals : List (Nat × Addr × Option Err)) (s : Session) :
    (lmtpData none none order arrivals s).finish ≤ 5 * order.length ∧
    ∀ miss, (lmtpData none none order arrivals s).err = some (Err.timeout miss) →
      miss = mapValues (lmtpData none none order arrivals s).sess.unresolved := by
  constructor
  · have h := waitLoop_finish_le order s.unresolved arrivals 0
    simpa [lmtpData] using h
  · intro miss h
    have h2 : (waitLoop order s.unresolved arrivals 0).err = some (Err.timeout miss) := by
      simpa [lmtpData] using h
    have h3 := waitLoop_timeout_missing order s.unresolved arrivals 0 miss h2
    simpa [lmtpData] using h3

/-- Claim C2 witness: one outstanding recipient and no status ever
arriving; the timeout error names exactly that recipient's original
address and the wait finishes within the per-key bound. -/
theorem lmtpData_per_event_timeout_witness :
    (lmtpData none none [['A']] [] ⟨[(['A'], ['p', '@', 'h'])]⟩).finish
      ≤ 5 * [['A']].length ∧
    [['p', '@', 'h']] = mapValues
      (lmtpData none none [['A']] [] ⟨[(['A'], ['p', '@', 'h'])]⟩).sess.unresolved :=
  ⟨(lmtpData_per_event_timeout [['A']] [] ⟨[(['A'], ['p', '@', 'h'])]⟩).1,
    (lmtpData_per_event_timeout [['A']] [] ⟨[(['A'], ['p', '@', 'h'])]⟩).2
      [['p', '@', 'h']] (by decide)⟩

/-- Claim C7: when the forwarder's data sink opens successfully but the
body copy fails, `LMTPData` returns exactly the copy error; the trace
shows only the sink being opened and closed — `SetStatus` is never
called and the status-wait loop is never entered — and the session's
`unresolved` map is left untouched. -/
theorem lmtpData_copy_error (e : Err) (order : List Addr)
    (arrivals : List (Nat × Addr × Option Err)) (s : Session) :
    lmtpData none (some e) order arrivals s =
      ⟨s, some e, [Event.openSinkCall, Event.closeSinkCall], 0⟩ := rfl

/-- Claim C10: whenever the forwarder's `LMTPData` call succeeds in
producing a body sink, that sink is closed exactly once before the
session's `LMTPData` returns — after a successful copy, after a failed
copy, and on the status-wait timeout path alike (`w.Close()` runs
unconditionally right after `io.Copy`, before the error check and the
wait loop). -/
theorem lmtpData_closes_sink_once (copyRes : Option Err) (order : List Addr)
    (arrivals : List (Nat × Addr × Option Err)) (s : Session) :
    (lmtpData none copyRes order arrivals s).trace.count Event.closeSinkCall = 1 := by
  cases copyRes with
  | some e => simp [lmtpData]
  | none =>
    have h := waitLoop_no_close order s.unresolved arrivals 0
    simp [lmtpData, List.count_cons, List.count_eq_zero.mpr h]

end EnsMail
